import Mathlib

/-!
Verification of the filesystem-tree builder and traversal engine of
`src/2022/src/bin/day07.rs` (Advent of Code 2022, day 7).

The Rust source builds a tree of `FsNode` values (files with a size,
directories with an ordered child list) from a shell-session transcript,
then runs two aggregate queries over a non-recursive depth-first iterator.
Shared `Rc<RefCell<_>>` node references are modelled by a pure tree plus
paths (lists of child indices) from the root: children are only ever
appended during parsing, so a path denotes the same node for the whole run,
exactly like a retained `Rc` reference does in the source.
-/

/-- `FsNode` from day07.rs: a file (with a size) or a directory. -/
inductive FsNode where
  | file (name : String) (size : Nat)
  | directory (name : String) (children : List FsNode)
deriving Repr

mutual

/-- `FsNode::get_total_size`: a file's stored size, or the sum of the
children's total sizes. -/
def FsNode.get_total_size : FsNode → Nat
  | .file _ s => s
  | .directory _ cs => sumChildrenSizes cs

/-- The sum `children.iter().map(|x| x.get_total_size()).sum()`. -/
def sumChildrenSizes : List FsNode → Nat
  | [] => 0
  | c :: cs => FsNode.get_total_size c + sumChildrenSizes cs

end

/-- The child list of a node (a file has none; the source panics where it
relies on a node being a directory, and every such spot is reached only
with directories). -/
def childrenOf : FsNode → List FsNode
  | .file _ _ => []
  | .directory _ cs => cs

mutual

/-- Canonical pre-order flattening of a subtree: the node itself first,
then the pre-order flattenings of its children in child order. -/
def preorder : FsNode → List FsNode
  | .file n s => [.file n s]
  | .directory n cs => .directory n cs :: preorderForest cs

/-- Pre-order flattening of a forest, in order. -/
def preorderForest : List FsNode → List FsNode
  | [] => []
  | c :: cs => preorder c ++ preorderForest cs

end

mutual

/-- Number of nodes of a subtree, counting the subtree's own root. -/
def nodeCount : FsNode → Nat
  | .file _ _ => 1
  | .directory _ cs => 1 + nodeCountForest cs

/-- Number of nodes of a forest. -/
def nodeCountForest : List FsNode → Nat
  | [] => 0
  | c :: cs => nodeCount c + nodeCountForest cs

end

/-- Accumulating decimal parser over the characters of a size field. -/
def parseNatAux : List Char → Nat → Option Nat
  | [], acc => some acc
  | c :: cs, acc =>
    if c.isDigit then parseNatAux cs (acc * 10 + (c.toNat - 48)) else none

/-- `str::parse::<usize>` as used on the size field of an `ls` output line:
an optional leading `+`, then at least one decimal digit and nothing else.
(Machine-width overflow is not modelled; the inputs at stake are tiny.) -/
def parseUsize (s : String) : Option Nat :=
  match s.toList with
  | [] => none
  | '+' :: [] => none
  | '+' :: cs => parseNatAux cs 0
  | cs => parseNatAux cs 0

/-- `line.split(' ')` from the parser: splits at every single space, keeping
empty fields, so the empty line tokenizes to `[""]`, never to `[]`. -/
def splitSpacesAux : List Char → List Char → List String
  | [], acc => [String.mk acc.reverse]
  | c :: cs, acc =>
    if c = ' ' then String.mk acc.reverse :: splitSpacesAux cs []
    else splitSpacesAux cs (c :: acc)

/-- Tokenization of one transcript line, as `line.split(' ')` does it. -/
def splitSpaces (s : String) : List String := splitSpacesAux s.toList []

/-- The failure kinds of the builder, one per `panic!`/`expect` site of the
source (names follow the spec taxonomy where it has one):
* `StackUnderflow` — `cd ..` with an empty cursor stack;
* `ChildNotFound` — `get_child_by_name` found no child directory;
* `NotADirectory` — a child lookup or child append hit a file;
* `MalformedSize` — the size field of an `ls` line does not parse;
* `UnrecognizedTranscriptLine` — a `$` line that is neither `ls` nor `cd`;
* `MissingCdArgument` — a `$ cd` line with no argument;
* `MalformedLsLine` — a non-command line with no second token
  (the `expect` on the `ls` output's right-hand side);
* `EmptyStack` — an operation needing a current directory found the
  cursor stack empty (`top` / `push_child_in_top_fs_node`);
* `InvalidPath` — a cursor path no longer denotes a node; unreachable,
  present only to make the path-based embedding total. -/
inductive ParseError where
  | StackUnderflow
  | ChildNotFound
  | NotADirectory
  | MalformedSize
  | UnrecognizedTranscriptLine
  | MissingCdArgument
  | MalformedLsLine
  | EmptyStack
  | InvalidPath
deriving Repr, DecidableEq

/-- Does the node match `FsNode::Directory { name, .. }` with `name == n`?
(the condition `get_child_by_name` scans for). -/
def isDirNamed (n : String) : FsNode → Bool
  | .directory nm _ => nm == n
  | .file _ _ => false

/-- Does the node match `FsNode::File { name, .. }` with `name == n`? -/
def isFileNamed (n : String) : FsNode → Bool
  | .file nm _ => nm == n
  | .directory _ _ => false

/-- The scan inside `get_child_by_name`: first child that is a directory
named `n`, in child order; files are skipped even when their name matches. -/
def findDirChild (n : String) : List FsNode → Option FsNode
  | [] => none
  | c :: rest =>
    match c with
    | .directory nm _ => if nm == n then some c else findDirChild n rest
    | .file _ _ => findDirChild n rest

/-- The same scan returning the index of the first matching child
directory; the parser's cursor stack stores paths of such indices. -/
def findDirChildIdx (n : String) : List FsNode → Option Nat
  | [] => none
  | c :: rest =>
    match c with
    | .directory nm _ =>
      if nm == n then some 0 else (findDirChildIdx n rest).map (· + 1)
    | .file _ _ => (findDirChildIdx n rest).map (· + 1)

/-- `FsNode::get_child_by_name`, with the two panic sites (`a file has no
children`, `child not found`) made explicit errors. -/
def FsNode.get_child_by_name : FsNode → String → Except ParseError FsNode
  | .file _ _, _ => .error .NotADirectory
  | .directory _ cs, n =>
    match findDirChild n cs with
    | some c => .ok c
    | none => .error .ChildNotFound

/-- The node an `Rc` reference held on the cursor stack denotes: follow the
child indices from the root. -/
def nodeAt : FsNode → List Nat → Option FsNode
  | n, [] => some n
  | .directory _ cs, i :: p =>
    match cs[i]? with
    | some c => nodeAt c p
    | none => none
  | .file _ _, _ :: _ => none

/-- `push_child` through a retained reference: append `child` to the child
list of the node at `path`. `none` covers the `cannot push child to a file`
panic (and, vacuously, dangling paths, which never arise). -/
def appendChildAt : FsNode → List Nat → FsNode → Option FsNode
  | .directory n cs, [], c => some (.directory n (cs ++ [c]))
  | .file _ _, [], _ => none
  | .directory n cs, i :: p, c =>
    match cs[i]? with
    | none => none
    | some child =>
      match appendChildAt child p c with
      | none => none
      | some child2 => some (.directory n (cs.set i child2))
  | .file _ _, _ :: _, _ => none

/-- Parser state: the tree grown so far (rooted at `/`) and the cursor
stack `dir_stack`, each entry the path of the `Rc` reference it models
(head = top of the `Vec`). -/
structure ParserState where
  tree : FsNode
  stack : List (List Nat)
deriving Repr

/-- `push_child_in_top_fs_node`: append a freshly created node to the
current (top-of-stack) directory's children. -/
def pushChildTop (st : ParserState) (child : FsNode) : Except ParseError ParserState :=
  match st.stack with
  | [] => .error .EmptyStack
  | topPath :: _ =>
    match appendChildAt st.tree topPath child with
    | some t => .ok ⟨t, st.stack⟩
    | none => .error .NotADirectory

/-- The `cd` arm of the parser: `/` resets the stack to the root, `..`
pops (underflow error on the empty stack), any other name is looked up
among the current directory's child directories and pushed. -/
def parseCd (st : ParserState) : List String → Except ParseError ParserState
  | [] => .error .MissingCdArgument
  | arg :: _ =>
    if arg = "/" then .ok ⟨st.tree, [[]]⟩
    else if arg = ".." then
      match st.stack with
      | [] => .error .StackUnderflow
      | _ :: rest => .ok ⟨st.tree, rest⟩
    else
      match st.stack with
      | [] => .error .EmptyStack
      | topPath :: _ =>
        match nodeAt st.tree topPath with
        | none => .error .InvalidPath
        | some (.file _ _) => .error .NotADirectory
        | some (.directory _ cs) =>
          match findDirChildIdx arg cs with
          | none => .error .ChildNotFound
          | some i => .ok ⟨st.tree, (topPath ++ [i]) :: st.stack⟩

/-- One line of `parse_shell_session_output`, on its tokens. The `[]`
arm mirrors the source's (unreachable) blank-line arm: `split(' ')`
yields `[""]` on the empty line, never an empty token stream. -/
def parseTokens (st : ParserState) : List String → Except ParseError ParserState
  | [] => .ok st
  | tok :: rest =>
    if tok = "$" then
      match rest with
      | [] => .error .UnrecognizedTranscriptLine
      | cmd :: args =>
        if cmd = "ls" then .ok st
        else if cmd = "cd" then parseCd st args
        else .error .UnrecognizedTranscriptLine
    else
      match rest with
      | [] => .error .MalformedLsLine
      | rhs :: _ =>
        if tok = "dir" then pushChildTop st (.directory rhs [])
        else
          match parseUsize tok with
          | none => .error .MalformedSize
          | some size => pushChildTop st (.file rhs size)

/-- One line of the parser loop, from the raw line. -/
def parseLine (st : ParserState) (line : String) : Except ParseError ParserState :=
  parseTokens st (splitSpaces line)

/-- The parser loop over the remaining lines; the first failure aborts the
run, as every failure site in the source is a panic. -/
def parseLinesFrom : ParserState → List String → Except ParseError ParserState
  | st, [] => .ok st
  | st, l :: ls =>
    match parseLine st l with
    | .error e => .error e
    | .ok st2 => parseLinesFrom st2 ls

/-- `parse_shell_session_output`: start from the root `/` with an *empty*
cursor stack and fold the lines (given as the list `s.lines()` yields),
returning the root of the built tree. -/
def parse_shell_session_output (lines : List String) : Except ParseError FsNode :=
  (parseLinesFrom ⟨.directory "/" [], []⟩ lines).map ParserState.tree

example : parse_shell_session_output ["$ cd /", "$ ls", "dir a", "$ cd a", "$ ls", "100 f"]
    = .ok (.directory "/" [.directory "a" [.file "f" 100]]) := rfl
example : parse_shell_session_output ["$ cd /", ""] = .error .MalformedLsLine := rfl
example : parse_shell_session_output ["$ cd .."] = .error .StackUnderflow := rfl
example : parse_shell_session_output ["$ cd /", "$ cd b"] = .error .ChildNotFound := rfl

/-- `FsIterator` from day07.rs: the explicit frame stack of
`(directory, next-child-index)` pairs plus the current directory and
child index. The `Vec` stack is a list with its head as the top. -/
structure FsIterator where
  dirStack : List (FsNode × Nat)
  currentDir : FsNode
  currentChildIndex : Nat
deriving Repr

/-- The `while current_child_index >= children.len()` loop of
`FsIterator::next`: pop frames while the current directory is exhausted;
`none` is the end of iteration (`dir_stack.pop()` returned `None`). -/
def skipExhausted : List (FsNode × Nat) → FsNode → Nat →
    Option (FsNode × Nat × List (FsNode × Nat))
  | [], dir, idx =>
    if idx < (childrenOf dir).length then some (dir, idx, []) else none
  | (p, pi) :: rest, dir, idx =>
    if idx < (childrenOf dir).length then some (dir, idx, (p, pi) :: rest)
    else skipExhausted rest p pi

/-- `FsIterator::next`: skip exhausted frames, take the child at the
current index, advance the index, and descend into the child if it is a
directory (pushing the parent frame). The inner `none` on a missing child
is unreachable: `skipExhausted` only stops at an index in range. -/
def FsIterator.next (it : FsIterator) : Option (FsNode × FsIterator) :=
  match skipExhausted it.dirStack it.currentDir it.currentChildIndex with
  | none => none
  | some (dir, idx, stack) =>
    match (childrenOf dir)[idx]? with
    | none => none
    | some child =>
      match child with
      | .file _ _ => some (child, ⟨stack, dir, idx + 1⟩)
      | .directory _ _ => some (child, ⟨(dir, idx + 1) :: stack, child, 0⟩)

/-- Drive the iterator, yielding at most `fuel` items. Each successful
`next` strictly shrinks the pending-output measure, so any fuel at least
`nodeCount` exhausts the iteration (proved below). -/
def runIter : Nat → FsIterator → List FsNode
  | 0, _ => []
  | fuel + 1, it =>
    match it.next with
    | none => []
    | some (x, it2) => x :: runIter fuel it2

/-- `(&fs).into_iter()`: the iterator starts at the root with an empty
frame stack and index 0 (so the root itself is never yielded). -/
def into_iter (fs : FsNode) : FsIterator := ⟨[], fs, 0⟩

/-- The full flat list an `FsIterator` over `fs` yields. -/
def fsTraverse (fs : FsNode) : List FsNode := runIter (nodeCount fs) (into_iter fs)

/-- The `filter_map` closure both queries of `main` use: `None` for a
file, `Some(node.get_total_size())` for a directory. -/
def dirTotalSize : FsNode → Option Nat
  | .file _ _ => none
  | .directory n cs => some (FsNode.get_total_size (.directory n cs))

/-- The first query of `main`: keep the directories of the traversal, map
them to their total size, keep the sizes at most 100000, and sum. -/
def sum_size_dirs_below_100_000 (fs : FsNode) : Nat :=
  (((fsTraverse fs).filterMap dirTotalSize).filter fun size => size ≤ 100000).sum

/-- The second query of `main`, exactly as written: keep the directories'
total sizes that are at most `70000000 - get_total_size root`, and take
their maximum (`None` when no size passes; the source `expect`s).
Truncated `Nat` subtraction stands in for the `usize` subtraction, which
in the source aborts in debug builds once the total exceeds 70000000; all
facts below stay under that bound. -/
def size_smallest_dir_for_update (fs : FsNode) : Option Nat :=
  (((fsTraverse fs).filterMap dirTotalSize).filter
    fun size => size ≤ 70000000 - fs.get_total_size).max?

example : fsTraverse (.directory "/" []) = [] := rfl
example : fsTraverse (.directory "/" [.file "a" 1]) = [.file "a" 1] := rfl
example : fsTraverse (.directory "/" [.directory "a" [.directory "b" []], .directory "c" []])
    = [.directory "a" [.directory "b" []], .directory "b" [], .directory "c" []] := rfl

/-- The canonical worked example (the source's `filesystem_iterator_dirs_and_files`
test tree, also the reference scenario of the spec). -/
def sampleTree : FsNode :=
  .directory "/"
    [ .directory "a"
        [ .directory "e" [.file "i" 584],
          .file "f" 29116,
          .file "g" 2557,
          .file "h.lst" 62596 ],
      .file "b.txt" 14848514,
      .file "c.dat" 8504156,
      .directory "d"
        [ .file "j" 4060174,
          .file "d.log" 8033020,
          .file "d.ext" 5626152,
          .file "k" 7214296 ] ]

mutual

/-- Stated from the spec's words (threshold-sum query): the sum of
`total_size` over every directory node of the subtree — the subtree's own
root included when it is a directory — whose total size is at most `th`;
files contribute nothing. -/
def specThresholdSum (th : Nat) : FsNode → Nat
  | .file _ _ => 0
  | .directory n cs =>
    (if FsNode.get_total_size (.directory n cs) ≤ th
     then FsNode.get_total_size (.directory n cs) else 0)
      + specThresholdSumForest th cs

/-- The same sum over a forest of subtrees. -/
def specThresholdSumForest (th : Nat) : List FsNode → Nat
  | [] => 0
  | c :: cs => specThresholdSum th c + specThresholdSumForest th cs

end

/-- Stated from the spec's words (minimal sufficient directory): with
capacity `cap` and free-space target `tgt`, the amount to free is
`max 0 (tgt - (cap - used))` (truncated subtraction is exactly that), and
the result is the minimum `total_size` over all directory nodes of the
tree — root included — of total size at least that amount; `none` is the
`NoCandidateDirectory` failure. -/
def specMinimalSufficientDir (cap tgt : Nat) (fs : FsNode) : Option Nat :=
  let used := fs.get_total_size
  let needed := tgt - (cap - used)
  (((preorder fs).filterMap dirTotalSize).filter fun size => needed ≤ size).min?

/-- What is still to be yielded out of one iterator frame: the pre-order
flattening of the not-yet-visited children of its directory. -/
def framePending (d : FsNode) (i : Nat) : List FsNode :=
  preorderForest ((childrenOf d).drop i)

/-- What is still to be yielded out of the saved frame stack, top first. -/
def stackPending : List (FsNode × Nat) → List FsNode
  | [] => []
  | (d, i) :: rest => framePending d i ++ stackPending rest

/-- Everything an iterator state has still to yield. -/
def pendingOf (it : FsIterator) : List FsNode :=
  framePending it.currentDir it.currentChildIndex ++ stackPending it.dirStack

example : sampleTree.get_total_size = 48381165 := rfl
example : sum_size_dirs_below_100_000 sampleTree = 95437 := rfl
example : size_smallest_dir_for_update sampleTree = some 94853 := rfl
example : specMinimalSufficientDir 70000000 30000000 sampleTree = some 24933642 := rfl

/-! ## Basic lemmas about sizes and the pre-order flattening -/

theorem sumChildrenSizes_eq_map_sum : ∀ cs : List FsNode,
    sumChildrenSizes cs = (cs.map FsNode.get_total_size).sum
  | [] => rfl
  | c :: cs => by
    simp [sumChildrenSizes, sumChildrenSizes_eq_map_sum cs]

mutual

theorem preorder_length : ∀ n : FsNode, (preorder n).length = nodeCount n
  | .file _ _ => rfl
  | .directory _ cs => by
    simp [preorder, nodeCount, preorderForest_length cs, Nat.add_comm]

theorem preorderForest_length : ∀ cs : List FsNode,
    (preorderForest cs).length = nodeCountForest cs
  | [] => rfl
  | c :: cs => by
    simp [preorderForest, nodeCountForest, preorder_length c, preorderForest_length cs]

end

/-! ## The iterator yields exactly its pending output -/

theorem skipExhausted_none : ∀ (stack : List (FsNode × Nat)) (dir : FsNode) (idx : Nat),
    skipExhausted stack dir idx = none →
    framePending dir idx ++ stackPending stack = []
  | [], dir, idx, h => by
    by_cases hlt : idx < (childrenOf dir).length
    · simp [skipExhausted, hlt] at h
    · have hdrop : (childrenOf dir).drop idx = [] :=
        List.drop_eq_nil_of_le (Nat.le_of_not_lt hlt)
      simp [framePending, stackPending, hdrop, preorderForest]
  | (p, pi) :: rest, dir, idx, h => by
    by_cases hlt : idx < (childrenOf dir).length
    · simp [skipExhausted, hlt] at h
    · have hdrop : (childrenOf dir).drop idx = [] :=
        List.drop_eq_nil_of_le (Nat.le_of_not_lt hlt)
      have h2 : skipExhausted rest p pi = none := by
        simpa [skipExhausted, hlt] using h
      have ih := skipExhausted_none rest p pi h2
      simp only [framePending, hdrop, preorderForest, List.nil_append, stackPending]
      exact ih

theorem skipExhausted_some : ∀ (stack : List (FsNode × Nat)) (dir : FsNode) (idx : Nat)
    (d : FsNode) (i : Nat) (s : List (FsNode × Nat)),
    skipExhausted stack dir idx = some (d, i, s) →
    i < (childrenOf d).length ∧
      framePending dir idx ++ stackPending stack = framePending d i ++ stackPending s
  | [], dir, idx, d, i, s, h => by
    by_cases hlt : idx < (childrenOf dir).length
    · simp only [skipExhausted, if_pos hlt, Option.some.injEq, Prod.mk.injEq] at h
      obtain ⟨h1, h2, h3⟩ := h
      subst h1; subst h2; subst h3
      exact ⟨hlt, rfl⟩
    · simp [skipExhausted, hlt] at h
  | (p, pi) :: rest, dir, idx, d, i, s, h => by
    by_cases hlt : idx < (childrenOf dir).length
    · simp only [skipExhausted, if_pos hlt, Option.some.injEq, Prod.mk.injEq] at h
      obtain ⟨h1, h2, h3⟩ := h
      subst h1; subst h2; subst h3
      exact ⟨hlt, rfl⟩
    · have hdrop : (childrenOf dir).drop idx = [] :=
        List.drop_eq_nil_of_le (Nat.le_of_not_lt hlt)
      have h2 : skipExhausted rest p pi = some (d, i, s) := by
        simpa [skipExhausted, hlt] using h
      obtain ⟨ih1, ih2⟩ := skipExhausted_some rest p pi d i s h2
      refine ⟨ih1, ?_⟩
      simp only [framePending, hdrop, preorderForest, List.nil_append, stackPending]
      exact ih2

theorem framePending_cons (d : FsNode) (i : Nat) (h : i < (childrenOf d).length) :
    framePending d i = preorder ((childrenOf d)[i]) ++ framePending d (i + 1) := by
  unfold framePending
  rw [List.drop_eq_getElem_cons h]
  rfl

theorem next_eq_none (it : FsIterator) (h : it.next = none) : pendingOf it = [] := by
  unfold FsIterator.next at h
  cases hsk : skipExhausted it.dirStack it.currentDir it.currentChildIndex with
  | none => exact skipExhausted_none _ _ _ hsk
  | some t =>
    obtain ⟨d, i, s⟩ := t
    obtain ⟨hlt, _⟩ := skipExhausted_some _ _ _ _ _ _ hsk
    rw [hsk] at h
    dsimp only at h
    rw [List.getElem?_eq_getElem hlt] at h
    cases hc : (childrenOf d)[i] <;> rw [hc] at h <;> simp at h

theorem next_eq_some (it : FsIterator) (x : FsNode) (it2 : FsIterator)
    (h : it.next = some (x, it2)) : pendingOf it = x :: pendingOf it2 := by
  unfold FsIterator.next at h
  cases hsk : skipExhausted it.dirStack it.currentDir it.currentChildIndex with
  | none => rw [hsk] at h; simp at h
  | some t =>
    obtain ⟨d, i, s⟩ := t
    obtain ⟨hlt, hpe⟩ := skipExhausted_some _ _ _ _ _ _ hsk
    rw [hsk] at h
    dsimp only at h
    rw [List.getElem?_eq_getElem hlt] at h
    have hpend : pendingOf it = framePending d i ++ stackPending s := hpe
    cases hc : (childrenOf d)[i] with
    | file n sz =>
      rw [hc] at h
      dsimp only at h
      simp only [Option.some.injEq, Prod.mk.injEq] at h
      obtain ⟨hx, hit⟩ := h
      subst hx; subst hit
      rw [hpend, framePending_cons d i hlt, hc]
      simp [preorder, pendingOf, stackPending]
    | directory n cs =>
      rw [hc] at h
      dsimp only at h
      simp only [Option.some.injEq, Prod.mk.injEq] at h
      obtain ⟨hx, hit⟩ := h
      subst hx; subst hit
      rw [hpend, framePending_cons d i hlt, hc]
      simp [preorder, pendingOf, stackPending, framePending, childrenOf]

theorem runIter_eq_pending : ∀ (fuel : Nat) (it : FsIterator),
    (pendingOf it).length ≤ fuel → runIter fuel it = pendingOf it
  | 0, it, h => by
    have hnil : pendingOf it = [] := List.length_eq_zero.mp (Nat.le_zero.mp h)
    simp [runIter, hnil]
  | fuel + 1, it, h => by
    cases hn : it.next with
    | none =>
      rw [runIter, hn, next_eq_none it hn]
    | some p =>
      obtain ⟨x, it2⟩ := p
      have hp := next_eq_some it x it2 hn
      have hlen : (pendingOf it2).length ≤ fuel := by
        have := congrArg List.length hp
        simp only [List.length_cons] at this
        omega
      rw [runIter, hn]
      dsimp only
      rw [hp, runIter_eq_pending fuel it2 hlen]

theorem forest_count_lt_nodeCount (fs : FsNode) :
    nodeCountForest (childrenOf fs) < nodeCount fs := by
  cases fs with
  | file n s => simp [childrenOf, nodeCountForest, nodeCount]
  | directory n cs => simp only [childrenOf, nodeCount]; omega

/-- The central traversal theorem: a full run of the iterator over `fs`
yields exactly the pre-order flattening of the root's children — every
node of the tree except the root itself, in pre-order. -/
theorem fsTraverse_eq_preorderForest (fs : FsNode) :
    fsTraverse fs = preorderForest (childrenOf fs) := by
  have hpend : pendingOf (into_iter fs) = preorderForest (childrenOf fs) := by
    simp [pendingOf, into_iter, framePending, stackPending]
  have hlen : (pendingOf (into_iter fs)).length ≤ nodeCount fs := by
    rw [hpend, preorderForest_length]
    exact Nat.le_of_lt (forest_count_lt_nodeCount fs)
  rw [fsTraverse, runIter_eq_pending (nodeCount fs) (into_iter fs) hlen, hpend]

/-! ## Size bounds over the pre-order enumeration -/

mutual

theorem total_size_le_of_mem_preorder : ∀ (t d : FsNode),
    d ∈ preorder t → d.get_total_size ≤ t.get_total_size
  | .file n s, d, h => by
    simp only [preorder, List.mem_singleton] at h
    subst h
    exact Nat.le_refl _
  | .directory n cs, d, h => by
    simp only [preorder, List.mem_cons] at h
    cases h with
    | inl h => subst h; exact Nat.le_refl _
    | inr h =>
      exact Nat.le_trans (total_size_le_of_mem_preorderForest cs d h) (Nat.le_refl _)

theorem total_size_le_of_mem_preorderForest : ∀ (cs : List FsNode) (d : FsNode),
    d ∈ preorderForest cs → d.get_total_size ≤ sumChildrenSizes cs
  | c :: cs, d, h => by
    simp only [preorderForest, List.mem_append] at h
    cases h with
    | inl h =>
      exact Nat.le_trans (total_size_le_of_mem_preorder c d h)
        (Nat.le_add_right _ _)
    | inr h =>
      exact Nat.le_trans (total_size_le_of_mem_preorderForest cs d h)
        (Nat.le_add_left _ _)

end

/-! ## The threshold-sum query over the pre-order enumeration -/

mutual

theorem filter_sum_preorder (th : Nat) : ∀ n : FsNode,
    (((preorder n).filterMap dirTotalSize).filter fun size => size ≤ th).sum
      = specThresholdSum th n
  | .file nm s => by
    simp [preorder, dirTotalSize, specThresholdSum]
  | .directory nm cs => by
    by_cases hle : FsNode.get_total_size (.directory nm cs) ≤ th <;>
      simp [preorder, dirTotalSize, specThresholdSum, List.filterMap_cons, hle,
        filter_sum_preorderForest th cs]

theorem filter_sum_preorderForest (th : Nat) : ∀ cs : List FsNode,
    (((preorderForest cs).filterMap dirTotalSize).filter fun size => size ≤ th).sum
      = specThresholdSumForest th cs
  | [] => rfl
  | c :: cs => by
    simp [preorderForest, List.filterMap_append, List.filter_append,
      specThresholdSumForest, filter_sum_preorder th c, filter_sum_preorderForest th cs]

end

/-! ## Child lookup lemmas -/

theorem findDirChild_eq_none : ∀ cs : List FsNode, (∀ c ∈ cs, isDirNamed n c = false) →
    findDirChild n cs = none
  | [], _ => rfl
  | c :: cs, h => by
    have hc := h c (List.mem_cons_self c cs)
    have hcs := findDirChild_eq_none cs fun d hd => h d (List.mem_cons_of_mem c hd)
    cases c with
    | file nm s => simpa [findDirChild] using hcs
    | directory nm children =>
      simp only [isDirNamed] at hc
      simp [findDirChild, hc, hcs]

theorem findDirChild_of_mem : ∀ cs : List FsNode, ∀ c ∈ cs, isDirNamed n c = true →
    ∃ d, findDirChild n cs = some d ∧ isDirNamed n d = true
  | c0 :: cs, c, hm, hdir => by
    cases c0 with
    | file nm s =>
      have : c ∈ cs := by
        cases List.mem_cons.mp hm with
        | inl h => subst h; simp [isDirNamed] at hdir
        | inr h => exact h
      simpa [findDirChild] using findDirChild_of_mem cs c this hdir
    | directory nm children =>
      by_cases hn : (nm == n) = true
      · exact ⟨.directory nm children, by simp [findDirChild, hn], by simpa [isDirNamed] using hn⟩
      · have : c ∈ cs := by
          cases List.mem_cons.mp hm with
          | inl h => subst h; simp only [isDirNamed] at hdir; exact absurd hdir hn
          | inr h => exact h
        have ih := findDirChild_of_mem cs c this hdir
        simpa [findDirChild, hn] using ih

theorem findDirChildIdx_eq_none : ∀ cs : List FsNode,
    (∀ c ∈ cs, isDirNamed n c = false) → findDirChildIdx n cs = none
  | [], _ => rfl
  | c :: cs, h => by
    have hc := h c (List.mem_cons_self c cs)
    have hcs := findDirChildIdx_eq_none cs fun d hd => h d (List.mem_cons_of_mem c hd)
    cases c with
    | file nm s => simp [findDirChildIdx, hcs]
    | directory nm children =>
      simp only [isDirNamed] at hc
      simp [findDirChildIdx, hc, hcs]

theorem findDirChildIdx_spec : ∀ (cs : List FsNode) (i : Nat),
    findDirChildIdx n cs = some i →
    ∃ c, cs[i]? = some c ∧ isDirNamed n c = true
  | [], i, h => by simp [findDirChildIdx] at h
  | c0 :: cs, i, h => by
    cases c0 with
    | file nm s =>
      simp only [findDirChildIdx, Option.map_eq_some'] at h
      obtain ⟨j, hj, hji⟩ := h
      obtain ⟨c, hc, hcd⟩ := findDirChildIdx_spec cs j hj
      exact ⟨c, by simpa [← hji] using hc, hcd⟩
    | directory nm children =>
      by_cases hn : (nm == n) = true
      · simp only [findDirChildIdx, if_pos hn, Option.some.injEq] at h
        subst h
        exact ⟨.directory nm children, by simp, by simpa [isDirNamed] using hn⟩
      · simp only [findDirChildIdx, if_neg hn, Option.map_eq_some'] at h
        obtain ⟨j, hj, hji⟩ := h
        obtain ⟨c, hc, hcd⟩ := findDirChildIdx_spec cs j hj
        exact ⟨c, by simpa [← hji] using hc, hcd⟩

theorem nodeAt_append : ∀ (p : List Nat) (t : FsNode) (q : List Nat),
    nodeAt t (p ++ q) = (nodeAt t p).bind fun m => nodeAt m q
  | [], t, q => by cases t <;> rfl
  | i :: p, t, q => by
    cases t with
    | file nm s => rfl
    | directory nm cs =>
      simp only [List.cons_append, nodeAt]
      cases cs[i]? with
      | none => rfl
      | some c => exact nodeAt_append p c q

/-! ## The claims -/

/-- C1: the source contradicts the specified minimal-sufficient-directory
query. On the canonical worked tree (total size 48381165) the code keeps
the directory sizes at most `70000000 - used = 21618835` and returns their
maximum, 94853, never consulting the 30000000 free-space target; the query
the claim states (minimum directory size at least
`max 0 (30000000 - (70000000 - used)) = 8381165`) returns 24933642. -/
theorem c1_update_query_divergence :
    FsNode.get_total_size sampleTree = 48381165 ∧
    size_smallest_dir_for_update sampleTree = some 94853 ∧
    specMinimalSufficientDir 70000000 30000000 sampleTree = some 24933642 ∧
    (94853 : Nat) ≠ 24933642 :=
  ⟨rfl, rfl, rfl, by decide⟩

/-- C2 counterexample: the tree that is only a root has `K = 1` nodes
counting the root, yet a full traversal yields 0 items, not 1 — the
iterator starts at the root's children and never yields the root. -/
theorem c2_counterexample :
    ¬ (fsTraverse (.directory "/" [])).length = nodeCount (.directory "/" []) := by
  decide

/-- C2 (amended): a full run of the traversal over a tree with `K` nodes
(counting the root) yields exactly `K - 1` items: every node except the
root exactly once, since prepending the root to the output gives exactly
the pre-order enumeration of the whole tree. -/
theorem c2_traversal_coverage (t : FsNode) :
    (fsTraverse t).length + 1 = nodeCount t ∧ t :: fsTraverse t = preorder t := by
  constructor
  · rw [fsTraverse_eq_preorderForest, preorderForest_length]
    cases t <;> simp [childrenOf, nodeCount, nodeCountForest, Nat.add_comm]
  · rw [fsTraverse_eq_preorderForest]
    cases t <;> rfl

/-- C3 counterexample: on the tree whose root holds one file of size 1 the
root directory's total size (1) is within the threshold, so the claimed
sum — over every directory node including the root — is 1, but the query
returns 0: the traversal never yields the root. -/
theorem c3_counterexample :
    ¬ sum_size_dirs_below_100_000 (.directory "/" [.file "a" 1])
        = specThresholdSum 100000 (.directory "/" [.file "a" 1]) := by
  decide

/-- C3 (amended): the threshold-sum query returns the sum of
`get_total_size` over every directory node of the tree *except the root*
(the root is never yielded by the traversal) whose total size is at most
100000; files contribute nothing. -/
theorem c3_threshold_sum_excludes_root (t : FsNode) :
    sum_size_dirs_below_100_000 t = specThresholdSumForest 100000 (childrenOf t) := by
  unfold sum_size_dirs_below_100_000
  rw [fsTraverse_eq_preorderForest]
  exact filter_sum_preorderForest 100000 (childrenOf t)

/-- C4: the parser does *not* ignore blank lines, contradicting both the
spec and the source's own `Skip over blank lines` comment: `split(' ')`
over the empty line yields `[""]`, never an empty token iterator, so the
blank-line arm is unreachable and the blank line falls into the
`ls`-output arm, whose `expect` on the missing second token fails. -/
theorem c4_blank_line_rejected :
    parse_shell_session_output ["$ cd /"] = .ok (.directory "/" []) ∧
    parse_shell_session_output ["$ cd /", ""] = .error .MalformedLsLine :=
  ⟨rfl, rfl⟩

/-- C5: the traversal output is in pre-order — it equals the concatenated
canonical pre-order flattenings of the root's children in child order, so
every yielded directory precedes all of its descendants, children appear
in child (insertion) order, and each yielded node's subtree forms a
contiguous block before the next sibling. -/
theorem c5_preorder_traversal (t : FsNode) :
    fsTraverse t = preorderForest (childrenOf t) :=
  fsTraverse_eq_preorderForest t

/-- C6: `get_total_size` of a file is its stored size; of a directory, the
sum of `get_total_size` over its children; the empty directory has total
size 0. -/
theorem c6_total_size (nm : String) (s : Nat) (cs : List FsNode) :
    FsNode.get_total_size (.file nm s) = s ∧
    FsNode.get_total_size (.directory nm cs) = (cs.map FsNode.get_total_size).sum ∧
    FsNode.get_total_size (.directory nm []) = 0 :=
  ⟨rfl, sumChildrenSizes_eq_map_sum cs, rfl⟩

/-- C7 counterexample: on the root-only tree the minimal-sufficient query
as implemented has no candidate at all — in particular the root is not
one — and returns `none` (the source's `expect("at least one value")`
panics), refuting `always has at least one candidate, namely the root`. -/
theorem c7_counterexample :
    size_smallest_dir_for_update (.directory "/" []) = none :=
  rfl

/-- C7 (amended): every node reachable from the root — in particular every
directory in the pre-order enumeration — has total size at most the
root's total size. The claimed consequence is dropped: the query as
implemented never considers the root and can have zero candidates. -/
theorem c7_root_upper_bound (t d : FsNode) (h : d ∈ preorder t) :
    d.get_total_size ≤ t.get_total_size :=
  total_size_le_of_mem_preorder t d h

/-- C7 witness: a concrete tree and member node instantiating the bound. -/
theorem c7_witness :
    (FsNode.file "a" 5) ∈ preorder (.directory "/" [.file "a" 5]) ∧
    (FsNode.file "a" 5).get_total_size
      ≤ (FsNode.directory "/" [.file "a" 5]).get_total_size := by
  have hmem : (FsNode.file "a" 5) ∈ preorder (.directory "/" [.file "a" 5]) := by
    rw [show preorder (.directory "/" [.file "a" 5])
        = [.directory "/" [.file "a" 5], .file "a" 5] from rfl]
    exact List.mem_cons_of_mem _ (List.mem_cons_self _ _)
  exact ⟨hmem, c7_root_upper_bound _ _ hmem⟩

/-- C8: a `$ cd ..` line on an empty cursor stack fails the whole parse
with `StackUnderflow` whatever follows (no tree is produced); on a
non-empty stack it pops exactly the top entry and leaves the tree built so
far unchanged. -/
theorem c8_cd_parent_pops (st : ParserState) :
    (st.stack = [] →
      ∀ rest, parseLinesFrom st ("$ cd .." :: rest) = .error .StackUnderflow) ∧
    (∀ p stk, st.stack = p :: stk → parseLine st "$ cd .." = .ok ⟨st.tree, stk⟩) := by
  obtain ⟨tree, stack⟩ := st
  constructor
  · intro h rest
    simp only at h
    subst h
    rfl
  · intro p stk h
    simp only at h
    subst h
    rfl

/-- C8 witness: both branches at concrete states. -/
theorem c8_witness :
    parseLinesFrom ⟨.directory "/" [], []⟩ ["$ cd .."] = .error .StackUnderflow ∧
    parseLine ⟨.directory "/" [], [[]]⟩ "$ cd .." = .ok ⟨.directory "/" [], []⟩ := by
  constructor
  · exact (c8_cd_parent_pops ⟨.directory "/" [], []⟩).1 rfl []
  · exact (c8_cd_parent_pops ⟨.directory "/" [], [[]]⟩).2 [] [] rfl

/-- C9: a `$ cd NAME` line (NAME neither `/` nor `..`) with the cursor on
a directory looks NAME up among that directory's child *directories*:
when the scan finds one (at child index `i`) the parser pushes that child
onto the cursor stack — the new top path denotes a child directory named
NAME — and leaves the tree unchanged; when the current directory has no
child directory named NAME the parse fails with `ChildNotFound`. -/
theorem c9_cd_child (tree : FsNode) (topPath : List Nat) (stk : List (List Nat))
    (nm name : String) (cs : List FsNode)
    (htop : nodeAt tree topPath = some (.directory nm cs))
    (h1 : name ≠ "/") (h2 : name ≠ "..") :
    (∀ i, findDirChildIdx name cs = some i →
      parseTokens ⟨tree, topPath :: stk⟩ ["$", "cd", name]
          = .ok ⟨tree, (topPath ++ [i]) :: topPath :: stk⟩ ∧
      ∃ c, nodeAt tree (topPath ++ [i]) = some c ∧ isDirNamed name c = true) ∧
    ((∀ c ∈ cs, isDirNamed name c = false) →
      parseTokens ⟨tree, topPath :: stk⟩ ["$", "cd", name] = .error .ChildNotFound) := by
  have hred : parseTokens ⟨tree, topPath :: stk⟩ ["$", "cd", name]
      = parseCd ⟨tree, topPath :: stk⟩ [name] := rfl
  have hstep : parseCd ⟨tree, topPath :: stk⟩ [name]
      = (match findDirChildIdx name cs with
         | none => Except.error ParseError.ChildNotFound
         | some i => Except.ok ⟨tree, (topPath ++ [i]) :: topPath :: stk⟩) := by
    unfold parseCd
    dsimp only
    rw [if_neg h1, if_neg h2, htop]
  constructor
  · intro i hi
    constructor
    · rw [hred, hstep, hi]
    · obtain ⟨c, hc, hcdir⟩ := findDirChildIdx_spec cs i hi
      refine ⟨c, ?_, hcdir⟩
      rw [nodeAt_append, htop]
      simp [nodeAt, hc]
  · intro hnone
    rw [hred, hstep, findDirChildIdx_eq_none cs hnone]

/-- C9 witness: entering a declared child directory pushes it; entering an
undeclared one fails with `ChildNotFound`. -/
theorem c9_witness :
    parseTokens ⟨.directory "/" [.directory "a" []], [[]]⟩ ["$", "cd", "a"]
        = .ok ⟨.directory "/" [.directory "a" []], [[0], []]⟩ ∧
    parseTokens ⟨.directory "/" [.directory "a" []], [[]]⟩ ["$", "cd", "b"]
        = .error .ChildNotFound := by
  constructor
  · exact ((c9_cd_child (.directory "/" [.directory "a" []]) [] [] "/" "a"
      [.directory "a" []] rfl (by decide) (by decide)).1 0 rfl).1
  · exact (c9_cd_child (.directory "/" [.directory "a" []]) [] [] "/" "b"
      [.directory "a" []] rfl (by decide) (by decide)).2 (by decide)

/-- C10: `get_child_by_name` only matches directory children: when the
children include a file named `n` but no directory named `n` it fails with
`ChildNotFound` rather than returning the file, and whenever some child
directory is named `n` the returned node is a directory named `n` — even
when a file of that name precedes it in child order. -/
theorem c10_lookup_matches_only_directories :
    (∀ (nm n : String) (cs : List FsNode),
      (∃ c ∈ cs, isFileNamed n c = true) →
      (∀ c ∈ cs, isDirNamed n c = false) →
      FsNode.get_child_by_name (.directory nm cs) n = .error .ChildNotFound) ∧
    (∀ (nm n : String) (cs : List FsNode) (c : FsNode),
      c ∈ cs → isDirNamed n c = true →
      ∃ d, FsNode.get_child_by_name (.directory nm cs) n = .ok d
        ∧ isDirNamed n d = true) := by
  constructor
  · intro nm n cs _ hall
    unfold FsNode.get_child_by_name
    dsimp only
    rw [findDirChild_eq_none cs hall]
  · intro nm n cs c hm hdir
    obtain ⟨d, hd, hdd⟩ := findDirChild_of_mem cs c hm hdir
    refine ⟨d, ?_, hdd⟩
    unfold FsNode.get_child_by_name
    dsimp only
    rw [hd]

/-- C10 witness: a same-named file alone is not found; a same-named file
followed by a directory yields the directory. -/
theorem c10_witness :
    FsNode.get_child_by_name (.directory "r" [.file "x" 1]) "x"
        = .error .ChildNotFound ∧
    ∃ d, FsNode.get_child_by_name
        (.directory "r" [.file "x" 1, .directory "x" [.file "y" 2]]) "x" = .ok d
      ∧ isDirNamed "x" d = true := by
  constructor
  · exact c10_lookup_matches_only_directories.1 "r" "x" [.file "x" 1]
      ⟨.file "x" 1, by simp, by decide⟩ (by decide)
  · exact c10_lookup_matches_only_directories.2 "r" "x"
      [.file "x" 1, .directory "x" [.file "y" 2]]
      (.directory "x" [.file "y" 2]) (by simp) (by decide)
